import Mathlib

/-!
Shallow embedding of the `pim` repository (Prometheus file_sd target
generator) for specification checking.

The embedding follows the Rust sources under `src/`:
  * `src/app/target.rs`   — `TargetGroup`, `TargetFile`, `TargetFiles`
  * `src/app/source.rs`   — `Source`, `SourceFile` and expansion
  * `src/core/output.rs`  — `OutputKind`, `OutputFormat`, `Output`
  * `src/core/input.rs`   — `InputFormat`, stdin/file input construction
  * `src/core/error.rs`   — the error type

Conventions of the embedding:
  * `BTreeMap<String, String>` is embedded as a key-sorted association
    list `List (String × String)`; `BTreeMap::insert` is `Labels.insert`
    (replace on equal key, otherwise keep sorted), `get`/`contains_key`
    are association-list lookups.  `BTreeMap` iteration order (ascending
    key order) is the list order of the sorted representation.
  * External effects (terminal detection, the filesystem, the byte-level
    writers) are an explicit environment value `Fs`: `is_terminal`,
    `Path::is_dir`, whether `get_writer(path)` succeeds, and whether the
    final `writer.write_all` succeeds for a given path.
  * `serde_json` / `serde_yaml` parse external text into a document
    tree; the embedding starts from that tree (`JValue`) and embeds the
    *derived* `Deserialize` implementation of `Source`
    (`#[derive(Deserialize)]` with no `#[serde(default)]` and no
    `deny_unknown_fields`): unknown fields are skipped, duplicate fields
    and missing fields are errors.
  * Serialisation of a group list to text is external (`serde_json::to_string`
    etc.); `Output.emit` takes the pretty and the compact payload as
    parameters and embeds only the framing logic of `output.rs`.
  * `TargetGroup::hash` (target.rs lines 65–77) feeds exactly `job` and
    the label pairs, in `BTreeMap` (ascending-key) order, into a
    deterministic 64-bit hasher.  The embedding keeps the hashed input
    stream itself, `(job, labels)`, as the digest: equal `(job, labels)`
    always yields equal digests in the source, and the specification
    directs that digest equality be read as `(job, labels)` equality
    (collisions are out of scope / treated as equality).
-/

namespace Pim

/-- Paths are embedded as plain strings; `PathBuf::push` inserts a
separator (`construct_filebuf` in target.rs). -/
abbrev Path := String

/-- Lexicographic strict order on char lists, comparing Unicode scalar
values — on strings this is exactly the byte-wise `Ord` that
`BTreeMap<String, _>` sorts its keys by. -/
def strLtb : List Char → List Char → Bool
  | [], [] => false
  | [], _ :: _ => true
  | _ :: _, [] => false
  | a :: as, b :: bs =>
    if a.toNat < b.toNat then true
    else if b.toNat < a.toNat then false
    else strLtb as bs

/-- The `BTreeMap` key order on strings. -/
def keyLt (a b : String) : Bool := strLtb a.data b.data

/-- `BTreeMap<String, String>` as a key-sorted association list. -/
abbrev Labels := List (String × String)

namespace Labels

/-- `BTreeMap::get`: association-list lookup. -/
def get (m : Labels) (k : String) : Option String :=
  match m with
  | [] => none
  | (k', v) :: rest => if k = k' then some v else get rest k

/-- `BTreeMap::contains_key`. -/
def contains_key (m : Labels) (k : String) : Bool :=
  (get m k).isSome

/-- `BTreeMap::insert`: replaces the value under an existing key,
otherwise inserts keeping the ascending key order. -/
def insert (m : Labels) (k v : String) : Labels :=
  match m with
  | [] => [(k, v)]
  | (k', v') :: rest =>
    if keyLt k k' then (k, v) :: (k', v') :: rest
    else if k = k' then (k, v) :: rest
    else (k', v') :: insert rest k v

end Labels

/-- `core/error.rs`: the `SourceError` taxonomy.  I/O and serde payloads
are carried as their rendered message strings. -/
inductive SourceError where
  | io (msg : String)
  | serdeJson (msg : String)
  | serdeYaml (msg : String)
  | unsupportedInputFormat (s : String)
  | unsupportedOutputFormat (s : String)
  | invalidInputSource (s : String)
  | msg (s : String)
deriving DecidableEq, Repr

/-- `core/error.rs`: the `Error` wrapper (exit code, context line,
help-flag, underlying source error). -/
structure Error where
  code : Option Int
  context : String
  printHelp : Bool
  source : SourceError
deriving DecidableEq, Repr

namespace Error

/-- `Error::new`. -/
def new (source : SourceError) : Error :=
  { code := none, context := "", printHelp := false, source := source }

/-- `Error::set_code` (source.rs call sites): records the exit code. -/
def set_code (e : Error) (c : Int) : Error := { e with code := some c }

/-- `Error::set_context` (source.rs call sites): records the context line. -/
def set_context (e : Error) (ctx : String) : Error := { e with context := ctx }

/-- `Error::context` as used in target.rs (`e.context(&format!(...))`):
replaces the context with the given non-empty string. -/
def with_context (e : Error) (ctx : String) : Error := { e with context := ctx }

end Error

/-- `CODE_RUNTIME_ERROR` from core/error.rs. -/
def CODE_RUNTIME_ERROR : Int := 1

/-- `core/output.rs`: `OutputFormat`. -/
inductive OutputFormat where
  | json
  | yaml
deriving DecidableEq, Repr

namespace OutputFormat

/-- `OutputFormat::as_str`. -/
def as_str : OutputFormat → String
  | json => "json"
  | yaml => "yaml"

/-- `OutputFormat::extension`. -/
def extension : OutputFormat → String
  | json => "json"
  | yaml => "yml"

end OutputFormat

/-- `core/output.rs`: `OutputKind`. -/
inductive OutputKind where
  | stdout
  | file (path : Path)
  | directory (path : Path)
deriving DecidableEq, Repr

/-- The external environment: terminal attachment of stdout, the
filesystem's answer to `Path::is_dir`, whether `get_writer(path)`
succeeds, and whether the byte-level `write_all` to a path succeeds. -/
structure Fs where
  stdoutIsTerminal : Bool
  isDir : Path → Bool
  writerOk : Path → Bool
  writeOk : Path → Bool

namespace OutputKind

/-- `OutputKind::new` (output.rs lines 20–30): the sentinel path
`"<stdout>"` is Stdout, an existing directory is Directory, anything
else is File. -/
def new (fs : Fs) (path : Path) : OutputKind :=
  if path = "<stdout>" then OutputKind.stdout
  else if fs.isDir path then OutputKind.directory path
  else OutputKind.file path

end OutputKind

/-- `core/output.rs`: `Output` (the boxed writer itself is external; the
environment `Fs` answers for it). -/
structure Output where
  path : Path
  kind : OutputKind
  format : OutputFormat
  pretty : Bool
deriving DecidableEq, Repr

namespace Output

/-- `Output::new` (output.rs lines 103–130): the sentinel `"<stdout>"`
gives kind Stdout with pretty = stdout-is-a-terminal; any other path
obtains a file writer (which may fail) and is always pretty. -/
def new (fs : Fs) (path : Path) (format : OutputFormat) : Except Error Output :=
  if path = "<stdout>" then
    Except.ok { path := path, kind := OutputKind.stdout, format := format,
                pretty := fs.stdoutIsTerminal }
  else
    if fs.writerOk path then
      Except.ok { path := path, kind := OutputKind.new fs path, format := format,
                  pretty := true }
    else
      Except.error ((Error.new (SourceError.io ("Failed to open output: " ++ path))).set_code
        CODE_RUNTIME_ERROR)

/-- The framing applied by `pretty` (output.rs lines 190–231): on stdout
the serialized payload is wrapped as `"<job>:\n" ++ payload ++ "\n"`,
otherwise it is written bare. -/
def prettyData (payload : String) (job : String) (isStdout : Bool) : String :=
  (if isStdout then job ++ ":\n" else "") ++ payload ++ (if isStdout then "\n" else "")

/-- The exact bytes handed to the writer by `Output::write` (output.rs
lines 152–159): when pretty, `pretty(..)` with stdout framing decided
by the kind; when not pretty, the compact payload from `raw(..)`.
`prettyPayload` / `rawPayload` stand for the external
`serde::to_string_pretty` / `to_string` results. -/
def emit (o : Output) (job : String) (prettyPayload rawPayload : String) : String :=
  if o.pretty then
    prettyData prettyPayload job (o.kind = OutputKind.stdout)
  else
    rawPayload

/-- `Output::write` with the byte-level writer answered by `Fs`:
returns the emitted data, or the I/O error of a failing
`writer.write_all`. -/
def write (fs : Fs) (o : Output) (job : String) (prettyPayload rawPayload : String) :
    Except Error String :=
  if fs.writeOk o.path then
    Except.ok (o.emit job prettyPayload rawPayload)
  else
    Except.error ((Error.new (SourceError.io "write failed")).set_context
      "Failed to write output")

end Output

/-- `app/target.rs`: `TargetGroup` (one label set and its endpoints,
scoped to one job; `job` is skipped on serialisation). -/
structure TargetGroup where
  job : String
  labels : Labels
  targets : List String
deriving DecidableEq, Repr

namespace TargetGroup

/-- The `From<TargetHelper>` conversion (target.rs lines 22–37): a
deserialized document carries only `labels` and `targets`; `job` is
recovered from `labels["job"]`, defaulting to `"unknown"`. -/
def fromHelper (labels : Labels) (targets : List String) : TargetGroup :=
  { job :=
      match labels.get "job" with
      | some job => job
      | none => "unknown",
    labels := labels,
    targets := targets }

/-- `TargetGroup::new` (target.rs lines 40–51), embedded faithfully:
the guard tests `labels.contains_key(job)` — the key looked up is the
*job name*, not the literal key `"job"` — and on a miss inserts
`"job" -> job` (replacing any value already stored under `"job"`). -/
def new (job : String) (labels : Labels) (targets : List String) : TargetGroup :=
  { job := job,
    labels := if labels.contains_key job then labels else labels.insert "job" job,
    targets := targets }

/-- `TargetGroup::hash` (target.rs lines 65–77): the hasher consumes
exactly `job` and then every `(k, v)` label pair in ascending key
order.  The embedding keeps the consumed stream `(job, labels)` itself
as the digest (see the header note: digest equality is read as
`(job, labels)` equality). -/
def hash (g : TargetGroup) : String × Labels := (g.job, g.labels)

end TargetGroup

/-- `app/target.rs`: `TargetFile` (one job's accumulated groups plus its
resolved output). -/
structure TargetFile where
  job : String
  output : Output
  targets : List TargetGroup
deriving DecidableEq, Repr

/-- `construct_filebuf` (target.rs lines 147–154): `PathBuf::push` of
`job + "_targets." + format.extension()` onto the directory. -/
def construct_filebuf (path : Path) (job : String) (format : OutputFormat) : Path :=
  path ++ "/" ++ job ++ "_targets." ++ format.extension

namespace TargetFile

/-- `TargetFile::new` (target.rs lines 87–111): resolve the run-level
output into this job's concrete path — stdout stays `"<stdout>"`, a
file keeps its path, a directory gains `<dir>/<job>_targets.<ext>` —
then build a fresh `Output` for it (failures gain a per-job context). -/
def new (fs : Fs) (job : String) (output : Output) (format : OutputFormat) :
    Except Error TargetFile :=
  let output_path : Path :=
    match output.kind with
    | OutputKind.stdout => "<stdout>"
    | OutputKind.file p => p
    | OutputKind.directory p => construct_filebuf p job format
  match Output.new fs output_path format with
  | Except.error e =>
      Except.error (e.with_context ("Failed to create target output file for job '" ++ job ++ "'"))
  | Except.ok output =>
      Except.ok { job := job, output := output, targets := [] }

/-- The merge loop body of `TargetFile::add_target` (target.rs lines
130–134): push each candidate endpoint the accumulated list does not
already contain (exact string match), in candidate order. -/
def mergeTargets (existing cand : List String) : List String :=
  cand.foldl (fun acc t => if acc.contains t then acc else acc ++ [t]) existing

/-- The scan of `TargetFile::add_target` (target.rs lines 125–139): walk
the existing groups in insertion order; at the first group whose hash
equals the candidate's, merge the candidate's endpoints and stop; if
none matches, append the candidate as a new group. -/
def addTargetList (groups : List TargetGroup) (target : TargetGroup) : List TargetGroup :=
  match groups with
  | [] => [target]
  | tg :: rest =>
    if tg.hash = target.hash then
      { tg with targets := mergeTargets tg.targets target.targets } :: rest
    else
      tg :: addTargetList rest target

/-- `TargetFile::add_target`. -/
def add_target (tf : TargetFile) (target : TargetGroup) : TargetFile :=
  { tf with targets := addTargetList tf.targets target }

/-- `TargetFile::write` (target.rs lines 141–145): `self.output.write(&self.job,
&self.targets)`.  The serialized payloads are external; the environment
answers for the byte-level write. -/
def write (fs : Fs) (tf : TargetFile) (prettyPayload rawPayload : String) :
    Except Error String :=
  tf.output.write fs tf.job prettyPayload rawPayload

end TargetFile

/-- `app/target.rs`: `TargetFiles`, the `BTreeMap<String, TargetFile>`
registry, embedded as a key-sorted association list. -/
structure TargetFiles where
  files : List (String × TargetFile)
deriving DecidableEq, Repr

namespace TargetFiles

/-- The empty registry (`TargetFiles::default`). -/
def empty : TargetFiles := ⟨[]⟩

/-- `BTreeMap::insert` on the registry. -/
def insertList (m : List (String × TargetFile)) (k : String) (v : TargetFile) :
    List (String × TargetFile) :=
  match m with
  | [] => [(k, v)]
  | (k', v') :: rest =>
    if keyLt k k' then (k, v) :: (k', v') :: rest
    else if k = k' then (k, v) :: rest
    else (k', v') :: insertList rest k v

/-- `TargetFiles::insert`. -/
def insert (tfs : TargetFiles) (job : String) (tf : TargetFile) : TargetFiles :=
  ⟨insertList tfs.files job tf⟩

/-- `TargetFiles::has_job` (`BTreeMap::contains_key`). -/
def has_job (tfs : TargetFiles) (job : String) : Bool :=
  tfs.files.any (fun kv => kv.1 = job)

/-- The effect of `target_files.target_file_mut(job)` followed by a
mutation of the found entry: apply `f` at the entry keyed `job`; if the
key is absent (`None` arm: a warning, no mutation) leave the registry
unchanged. -/
def modify (tfs : TargetFiles) (job : String) (f : TargetFile → TargetFile) : TargetFiles :=
  ⟨tfs.files.map (fun kv => if kv.1 = job then (kv.1, f kv.2) else kv)⟩

end TargetFiles

/-- `app/source.rs`: `Source` — one parsed input record. -/
structure Source where
  jobs : List String
  labels : Labels
  targets : List String
deriving DecidableEq, Repr

namespace Source

/-- The per-job body of the loop in `Source::into_targets` (source.rs
lines 55–84): reject an empty job name; lazily create the job's
`TargetFile`; then merge in a fresh `TargetGroup` cloned from the
source's labels and targets. -/
def intoTargetsStep (fs : Fs) (src : Source) (output : Output) (format : OutputFormat)
    (tfs : TargetFiles) (job : String) : Except Error TargetFiles :=
  if job = "" then
    Except.error (((Error.new (SourceError.invalidInputSource
      "Jobs in source cannot be empty"))).set_code CODE_RUNTIME_ERROR)
  else
    let ensure : Except Error TargetFiles :=
      if tfs.has_job job then Except.ok tfs
      else
        match TargetFile.new fs job output format with
        | Except.error e => Except.error e
        | Except.ok tf => Except.ok (tfs.insert job tf)
    match ensure with
    | Except.error e => Except.error e
    | Except.ok tfs =>
      Except.ok (tfs.modify job (fun tf =>
        tf.add_target (TargetGroup.new job src.labels src.targets)))

/-- The job loop of `Source::into_targets`, left to right. -/
def intoTargetsLoop (fs : Fs) (src : Source) (output : Output) (format : OutputFormat)
    (tfs : TargetFiles) : List String → Except Error TargetFiles
  | [] => Except.ok tfs
  | job :: rest =>
    match intoTargetsStep fs src output format tfs job with
    | Except.error e => Except.error e
    | Except.ok tfs' => intoTargetsLoop fs src output format tfs' rest

/-- `Source::into_targets` (source.rs lines 40–88): reject a source with
no jobs, then process each job in order. -/
def into_targets (fs : Fs) (src : Source) (output : Output) (format : OutputFormat)
    (tfs : TargetFiles) : Except Error TargetFiles :=
  if src.jobs.isEmpty then
    Except.error ((Error.new (SourceError.invalidInputSource
      "Source must have at least one job")).set_code CODE_RUNTIME_ERROR)
  else
    intoTargetsLoop fs src output format tfs src.jobs

end Source

namespace TargetFiles

/-- `TargetFiles::write_all` (target.rs lines 175–186) over the entry
list, also recording the paths written so far: entries are visited in
list order (= ascending key order of the sorted map); the first failing
write stops the traversal and its error is returned.  The serialized
payloads of the individual files are external and irrelevant to control
flow, so fixed placeholder payloads are passed down. -/
def writeAllList (fs : Fs) : List (String × TargetFile) → List Path × Except Error Unit
  | [] => ([], Except.ok ())
  | (_, tf) :: rest =>
    match tf.write fs "<pretty>" "<raw>" with
    | Except.error e => ([], Except.error e)
    | Except.ok _ =>
      let r := writeAllList fs rest
      (tf.output.path :: r.1, r.2)

/-- `TargetFiles::write_all`: the paths actually written, and the
overall result. -/
def write_all (fs : Fs) (tfs : TargetFiles) : List Path × Except Error Unit :=
  writeAllList fs tfs.files

end TargetFiles

/-!  The document layer: `serde_json` / `serde_yaml` parse text into a
tree of values; the derived `Deserialize` of `Source` consumes that
tree.  `JValue` is the common tree shape of both formats. -/

/-- A parsed JSON/YAML document tree. -/
inductive JValue where
  | null
  | bool (b : Bool)
  | num (n : Int)
  | str (s : String)
  | arr (xs : List JValue)
  | obj (fields : List (String × JValue))

/-- Deserializing one `String` (an element of `Vec<String>` or a label
value): only a string node is accepted. -/
def decodeString : JValue → Except String String
  | JValue.str s => Except.ok s
  | _ => Except.error "invalid type: expected a string"

/-- Deserializing `Vec<String>`: a sequence of strings, in order,
failing at the first non-string element. -/
def decodeStringList : JValue → Except String (List String)
  | JValue.arr xs =>
      xs.foldr (fun x acc =>
        match decodeString x, acc with
        | Except.error e, _ => Except.error e
        | Except.ok _, Except.error e => Except.error e
        | Except.ok s, Except.ok rest => Except.ok (s :: rest)) (Except.ok [])
  | _ => Except.error "invalid type: expected a sequence"

/-- Deserializing `BTreeMap<String, String>`: a mapping node whose
values are strings, inserted in document order (a repeated key keeps
the last value, as `BTreeMap::insert` does). -/
def decodeStringMapLoop (acc : Labels) : List (String × JValue) → Except String Labels
  | [] => Except.ok acc
  | (k, v) :: rest =>
    match decodeString v with
    | Except.error e => Except.error e
    | Except.ok s => decodeStringMapLoop (acc.insert k s) rest

/-- Deserializing `BTreeMap<String, String>` from a mapping node. -/
def decodeStringMap : JValue → Except String Labels
  | JValue.obj fields => decodeStringMapLoop [] fields
  | _ => Except.error "invalid type: expected a map"

namespace Source

/-- The field loop of the derived `Deserialize` for `Source` (source.rs
lines 9–14: `#[derive(Deserialize)]` on `jobs`, `labels`, `targets`,
with no `#[serde(default)]` and no `deny_unknown_fields`): recognized
fields are decoded once each (a second occurrence is a duplicate-field
error), unknown fields are skipped, and after the last field every
still-missing recognized field is a missing-field error, checked in
declaration order. -/
def readFields (jobs? : Option (List String)) (labels? : Option Labels)
    (targets? : Option (List String)) :
    List (String × JValue) → Except String Source
  | [] =>
    match jobs? with
    | none => Except.error "missing field jobs"
    | some jobs =>
      match labels? with
      | none => Except.error "missing field labels"
      | some labels =>
        match targets? with
        | none => Except.error "missing field targets"
        | some targets => Except.ok { jobs := jobs, labels := labels, targets := targets }
  | (k, v) :: rest =>
    if k = "jobs" then
      match jobs? with
      | some _ => Except.error "duplicate field jobs"
      | none =>
        match decodeStringList v with
        | Except.error e => Except.error e
        | Except.ok js => readFields (some js) labels? targets? rest
    else if k = "labels" then
      match labels? with
      | some _ => Except.error "duplicate field labels"
      | none =>
        match decodeStringMap v with
        | Except.error e => Except.error e
        | Except.ok ls => readFields jobs? (some ls) targets? rest
    else if k = "targets" then
      match targets? with
      | some _ => Except.error "duplicate field targets"
      | none =>
        match decodeStringList v with
        | Except.error e => Except.error e
        | Except.ok ts => readFields jobs? labels? (some ts) rest
    else
      readFields jobs? labels? targets? rest

/-- The derived `Deserialize` for `Source`: a mapping node is consumed
by the field loop; anything else is a type error. -/
def deserialize : JValue → Except String Source
  | JValue.obj fields => readFields none none none fields
  | _ => Except.error "invalid type: expected a map"

end Source

/-- A document decodes to `Vec<Source>`: a sequence node whose elements
each deserialize to a `Source`, failing at the first bad element. -/
def decodeSourceList : JValue → Except String (List Source)
  | JValue.arr xs =>
      xs.foldr (fun x acc =>
        match Source.deserialize x, acc with
        | Except.error e, _ => Except.error e
        | Except.ok _, Except.error e => Except.error e
        | Except.ok s, Except.ok rest => Except.ok (s :: rest)) (Except.ok [])
  | _ => Except.error "invalid type: expected a sequence"

/-- `core/input.rs`: `InputFormat`. -/
inductive InputFormat where
  | json
  | yaml
  | unknown
deriving DecidableEq, Repr

/-- `DEFAULT_INPUT_FORMAT` (input.rs line 12). -/
def DEFAULT_INPUT_FORMAT : InputFormat := InputFormat.yaml

namespace InputFormat

/-- Per-character lowercase over the string data (the effect of
`str::to_lowercase` on extension strings). -/
def lowerStr (s : String) : String := ⟨s.data.map Char.toLower⟩

/-- `InputFormat::from_extension` (input.rs lines 34–45), taking the
path's extension (as produced by the external path library; `none`
when the path has no extension) already split off: the extension is
lowercased and matched. -/
def from_extension (ext : Option String) : InputFormat :=
  let e := lowerStr (ext.getD "")
  if e = "json" then InputFormat.json
  else if e = "yaml" ∨ e = "yml" then InputFormat.yaml
  else InputFormat.unknown

/-- `InputFormat::as_str`. -/
def as_str : InputFormat → String
  | json => "json"
  | yaml => "yaml"
  | unknown => "unknown"

end InputFormat

/-- An `Input` as `SourceFile::read_sources` consumes it: its detected
format and its parsed document tree (the byte reader and the external
parser are collapsed into the tree). -/
structure Input where
  format : InputFormat
  doc : JValue

namespace Input

/-- The format field assigned by `Input::from_stdin` (input.rs lines
142–153): always `DEFAULT_INPUT_FORMAT`. -/
def stdinFormat : InputFormat := DEFAULT_INPUT_FORMAT

/-- The format field assigned by `Input::from_file` (input.rs lines
155–180): detected from the file's extension. -/
def fromFileFormat (ext : Option String) : InputFormat :=
  InputFormat.from_extension ext

end Input

namespace SourceFile

/-- `SourceFile::read_sources` (source.rs lines 113–159): each input is
decoded according to its detected format — JSON and YAML share the
derived deserializer over the parsed tree, differing only in the error
tag — and an input of any other format raises `UnsupportedInputFormat`;
the decoded records of all inputs are concatenated in input order. -/
def read_sources : List Input → Except Error (List Source)
  | [] => Except.ok []
  | input :: rest =>
    let decoded : Except Error (List Source) :=
      match input.format with
      | InputFormat.json =>
        match decodeSourceList input.doc with
        | Except.error e =>
          Except.error (((Error.new (SourceError.serdeJson e)).set_context
            "Failed to deserialize source from JSON").set_code CODE_RUNTIME_ERROR)
        | Except.ok srcs => Except.ok srcs
      | InputFormat.yaml =>
        match decodeSourceList input.doc with
        | Except.error e =>
          Except.error (((Error.new (SourceError.serdeYaml e)).set_context
            "Failed to deserialize source from YAML").set_code CODE_RUNTIME_ERROR)
        | Except.ok srcs => Except.ok srcs
      | InputFormat.unknown =>
        Except.error (((Error.new (SourceError.unsupportedInputFormat
          InputFormat.unknown.as_str)).set_context
          "Unsupported input format for source").set_code CODE_RUNTIME_ERROR)
    match decoded with
    | Except.error e => Except.error e
    | Except.ok srcs =>
      match read_sources rest with
      | Except.error e => Except.error e
      | Except.ok more => Except.ok (srcs ++ more)

/-- `SourceFile::into_targets` (source.rs lines 161–174): expand every
decoded source, in order, into the registry. -/
def into_targets (fs : Fs) (output : Output) (format : OutputFormat)
    (tfs : TargetFiles) : List Source → Except Error TargetFiles
  | [] => Except.ok tfs
  | src :: rest =>
    match src.into_targets fs output format tfs with
    | Except.error e => Except.error e
    | Except.ok tfs' => into_targets fs output format tfs' rest

end SourceFile

/-- The expansion-plus-write tail of `exporter` (bin/pim/main.rs): the
sources are expanded into the registry and, only if the whole expansion
succeeded, every target file is written; an expansion error reaches the
caller with nothing written. -/
def runFromSources (fs : Fs) (sources : List Source) (output : Output) :
    List Path × Except Error Unit :=
  match SourceFile.into_targets fs output output.format TargetFiles.empty sources with
  | Except.error e => ([], Except.error e)
  | Except.ok tfs => tfs.write_all fs

/-- `exporter` (bin/pim/main.rs): read all sources, then expand and
write. -/
def exporter (fs : Fs) (inputs : List Input) (output : Output) :
    List Path × Except Error Unit :=
  match SourceFile.read_sources inputs with
  | Except.error e => ([], Except.error e)
  | Except.ok sources => runFromSources fs sources output

/-!  Concrete environments used by closed statements. -/

/-- An environment in which stdout is not a terminal, no path is a
directory, and every writer is healthy. -/
def fsAllOk : Fs :=
  { stdoutIsTerminal := false, isDir := fun _ => false,
    writerOk := fun _ => true, writeOk := fun _ => true }

/-- The output that `Output::new fsAllOk "<stdout>" Json` resolves to. -/
def stdoutOut : Output :=
  { path := "<stdout>", kind := OutputKind.stdout, format := OutputFormat.json,
    pretty := false }

/-- An environment in which stdout is an interactive terminal. -/
def fsTerm : Fs :=
  { stdoutIsTerminal := true, isDir := fun _ => false,
    writerOk := fun _ => true, writeOk := fun _ => true }

/-- An environment whose byte-level write fails exactly on the path
`"bad"`. -/
def fsBad : Fs :=
  { stdoutIsTerminal := false, isDir := fun _ => false,
    writerOk := fun _ => true,
    writeOk := fun p => if p = "bad" then false else true }

/-- A file-sink `TargetFile` at a given path, used by closed
statements. -/
def fileTF (job p : String) : TargetFile :=
  { job := job,
    output := { path := p, kind := OutputKind.file p, format := OutputFormat.json,
                pretty := true },
    targets := [] }

/-!  Helper lemmas about the merge scan. -/

theorem addTargetList_no_match (groups : List TargetGroup) (t : TargetGroup)
    (h : ∀ g ∈ groups, g.hash ≠ t.hash) :
    TargetFile.addTargetList groups t = groups ++ [t] := by
  induction groups with
  | nil => rfl
  | cons tg rest ih =>
    have hne : tg.hash ≠ t.hash := h tg (List.mem_cons_self tg rest)
    simp only [TargetFile.addTargetList, if_neg hne, List.cons_append, List.cons.injEq,
      true_and]
    exact ih fun g hg => h g (List.mem_cons_of_mem tg hg)

theorem addTargetList_match (l₁ : List TargetGroup) (g : TargetGroup)
    (l₂ : List TargetGroup) (t : TargetGroup)
    (h₁ : ∀ g' ∈ l₁, g'.hash ≠ t.hash) (hg : g.hash = t.hash) :
    TargetFile.addTargetList (l₁ ++ g :: l₂) t =
      l₁ ++ { g with targets := TargetFile.mergeTargets g.targets t.targets } :: l₂ := by
  induction l₁ with
  | nil => simp [TargetFile.addTargetList, hg]
  | cons g' rest ih =>
    have hne : g'.hash ≠ t.hash := h₁ g' (List.mem_cons_self g' rest)
    simp only [List.cons_append, TargetFile.addTargetList, if_neg hne, List.cons.injEq,
      true_and]
    exact ih fun x hx => h₁ x (List.mem_cons_of_mem g' hx)

theorem hash_ignores_targets (t : TargetGroup) (ts : List String) :
    TargetGroup.hash { t with targets := ts } = t.hash := rfl

theorem addTargetList_length_independent_of_targets (t : TargetGroup)
    (ts : List String) (groups : List TargetGroup) :
    (TargetFile.addTargetList groups { t with targets := ts }).length =
      (TargetFile.addTargetList groups t).length := by
  induction groups with
  | nil => rfl
  | cons tg rest ih =>
    by_cases h : tg.hash = t.hash
    · simp [TargetFile.addTargetList, hash_ignores_targets, h]
    · simp only [TargetFile.addTargetList, hash_ignores_targets, if_neg h,
        List.length_cons]
      exact congrArg Nat.succ ih

/-- C1: the claim states that `TargetGroup::new` inserts `"job" -> job`
exactly when the key `"job"` is absent from `labels` and never disturbs
a pre-existing `"job"` entry.  The code (target.rs line 42) instead
tests `labels.contains_key(job)` — the *job name* — so with job `"x"`
and labels `{"job": "y"}` it overwrites the `"job"` entry with `"x"`,
and with job `"x"` and labels `{"x": "1"}` it inserts no `"job"` entry
at all.  This theorem evaluates the embedded code at both failing
inputs. -/
theorem C1_new_checks_job_name_not_job_key :
    (TargetGroup.new "x" [("job", "y")] []).labels = [("job", "x")] ∧
    (TargetGroup.new "x" [("x", "1")] []).labels.contains_key "job" = false := by
  decide

/-- C2: `TargetFile::add_target` scans the existing groups in insertion
order; the first group with the candidate's identity over
`(job, labels)` absorbs the candidate's endpoints (exact-string-match
union, candidate order) and no new group is created; with no match the
candidate is appended; the identity ignores the candidate's endpoints
(so they never influence whether a merge happens); and the two
contributions of P2 with endpoints `[a,b]` and `[b,c]` merge to one
group with endpoints `[a,b,c]`. -/
theorem C2_add_target_merges_by_identity (tf : TargetFile) (t : TargetGroup) :
    ((∀ g ∈ tf.targets, g.hash ≠ t.hash) →
      (tf.add_target t).targets = tf.targets ++ [t]) ∧
    (∀ l₁ g l₂, tf.targets = l₁ ++ g :: l₂ → (∀ g' ∈ l₁, g'.hash ≠ t.hash) →
      g.hash = t.hash →
      (tf.add_target t).targets =
        l₁ ++ { g with targets := TargetFile.mergeTargets g.targets t.targets } :: l₂) ∧
    (∀ ts, TargetGroup.hash { t with targets := ts } = t.hash) ∧
    (∀ ts groups, (TargetFile.addTargetList groups { t with targets := ts }).length =
      (TargetFile.addTargetList groups t).length) ∧
    (TargetFile.addTargetList
        (TargetFile.addTargetList [] (TargetGroup.new "j" [] ["a", "b"]))
        (TargetGroup.new "j" [] ["b", "c"]) =
      [{ job := "j", labels := [("job", "j")], targets := ["a", "b", "c"] }]) := by
  refine ⟨?_, ?_, fun ts => rfl, ?_, rfl⟩
  · intro h
    exact addTargetList_no_match tf.targets t h
  · intro l₁ g l₂ hsplit h₁ hg
    show TargetFile.addTargetList tf.targets t = _
    rw [hsplit]
    exact addTargetList_match l₁ g l₂ t h₁ hg
  · intro ts groups
    exact addTargetList_length_independent_of_targets t ts groups

/-- Witness for C2 at concrete inputs: a non-matching candidate is
appended, and a matching candidate is merged in place. -/
theorem C2_witness :
    (TargetFile.add_target
        ⟨"j", stdoutOut, [⟨"j", [("job", "j")], ["a"]⟩]⟩
        ⟨"k", [("job", "k")], ["u"]⟩).targets =
      [⟨"j", [("job", "j")], ["a"]⟩, ⟨"k", [("job", "k")], ["u"]⟩] ∧
    (TargetFile.add_target
        ⟨"j", stdoutOut, [⟨"j", [("job", "j")], ["a"]⟩]⟩
        ⟨"j", [("job", "j")], ["b"]⟩).targets =
      [⟨"j", [("job", "j")], ["a", "b"]⟩] := by
  constructor
  · exact (C2_add_target_merges_by_identity
      ⟨"j", stdoutOut, [⟨"j", [("job", "j")], ["a"]⟩]⟩ ⟨"k", [("job", "k")], ["u"]⟩).1
      (by decide)
  · exact (C2_add_target_merges_by_identity
      ⟨"j", stdoutOut, [⟨"j", [("job", "j")], ["a"]⟩]⟩ ⟨"j", [("job", "j")], ["b"]⟩).2.1
      [] ⟨"j", [("job", "j")], ["a"]⟩ [] rfl (by simp) (by decide)

/-- C5: expanding the P3 source — jobs `["x","y"]`, labels
`{"env":"prod"}`, targets `["h1:9100"]` — into an empty registry yields
exactly the two entries `"x"` and `"y"`, each holding one group whose
labels are the source labels plus `"job" -> <x|y>` and whose targets
are the source targets. -/
theorem C5_job_fanout :
    Source.into_targets fsAllOk ⟨["x", "y"], [("env", "prod")], ["h1:9100"]⟩
        stdoutOut OutputFormat.json TargetFiles.empty =
      Except.ok ⟨[
        ("x", ⟨"x", stdoutOut, [⟨"x", [("env", "prod"), ("job", "x")], ["h1:9100"]⟩]⟩),
        ("y", ⟨"y", stdoutOut, [⟨"y", [("env", "prod"), ("job", "y")], ["h1:9100"]⟩]⟩)]⟩ :=
  rfl

/-- C10: the `From<TargetHelper>` conversion keeps the deserialized
labels and targets unchanged and recovers `job` from `labels["job"]`,
defaulting to the literal `"unknown"` when that key is absent. -/
theorem C10_fromHelper_job_recovery (labels : Labels) (targets : List String) :
    (TargetGroup.fromHelper labels targets).labels = labels ∧
    (TargetGroup.fromHelper labels targets).targets = targets ∧
    (∀ j, labels.get "job" = some j → (TargetGroup.fromHelper labels targets).job = j) ∧
    (labels.get "job" = none → (TargetGroup.fromHelper labels targets).job = "unknown") := by
  refine ⟨rfl, rfl, ?_, ?_⟩
  · intro j h
    simp [TargetGroup.fromHelper, h]
  · intro h
    simp [TargetGroup.fromHelper, h]

/-- Witness for C10 at concrete inputs: a present `"job"` label is taken
over, an absent one defaults to `"unknown"`. -/
theorem C10_witness :
    (TargetGroup.fromHelper [("job", "x")] ["t"]).job = "x" ∧
    (TargetGroup.fromHelper [("env", "prod")] []).job = "unknown" :=
  ⟨(C10_fromHelper_job_recovery [("job", "x")] ["t"]).2.2.1 "x" rfl,
   (C10_fromHelper_job_recovery [("env", "prod")] []).2.2.2 rfl⟩

/-- A successful run of the derived field loop requires every recognized
field to have been seen: each of `jobs`/`labels`/`targets` was either
already collected or occurs among the remaining field names. -/
theorem readFields_ok_requires_fields (fields : List (String × JValue)) :
    ∀ jobs? labels? targets? s,
      Source.readFields jobs? labels? targets? fields = Except.ok s →
      (jobs?.isSome = true ∨ "jobs" ∈ fields.map Prod.fst) ∧
      (labels?.isSome = true ∨ "labels" ∈ fields.map Prod.fst) ∧
      (targets?.isSome = true ∨ "targets" ∈ fields.map Prod.fst) := by
  induction fields with
  | nil =>
    intro jobs? labels? targets? s h
    cases jobs? with
    | none => simp [Source.readFields] at h
    | some jobs =>
      cases labels? with
      | none => simp [Source.readFields] at h
      | some labels =>
        cases targets? with
        | none => simp [Source.readFields] at h
        | some targets => simp
  | cons kv rest ih =>
    intro jobs? labels? targets? s h
    obtain ⟨k, v⟩ := kv
    by_cases hk₁ : k = "jobs"
    · subst hk₁
      cases jobs? with
      | some _ => simp [Source.readFields] at h
      | none =>
        simp only [Source.readFields, if_pos rfl] at h
        cases hdec : decodeStringList v with
        | error e => rw [hdec] at h; exact absurd h (by simp)
        | ok js =>
          rw [hdec] at h
          have := ih (some js) labels? targets? s h
          refine ⟨Or.inr (by simp), ?_, ?_⟩
          · rcases this.2.1 with h' | h'
            · exact Or.inl h'
            · exact Or.inr (by simp [h'])
          · rcases this.2.2 with h' | h'
            · exact Or.inl h'
            · exact Or.inr (by simp [h'])
    · by_cases hk₂ : k = "labels"
      · subst hk₂
        cases labels? with
        | some _ => simp [Source.readFields] at h
        | none =>
          simp only [Source.readFields, reduceIte] at h
          cases hdec : decodeStringMap v with
          | error e => rw [hdec] at h; exact absurd h (by simp)
          | ok ls =>
            rw [hdec] at h
            have := ih jobs? (some ls) targets? s h
            refine ⟨?_, Or.inr (by simp), ?_⟩
            · rcases this.1 with h' | h'
              · exact Or.inl h'
              · exact Or.inr (by simp [h'])
            · rcases this.2.2 with h' | h'
              · exact Or.inl h'
              · exact Or.inr (by simp [h'])
      · by_cases hk₃ : k = "targets"
        · subst hk₃
          cases targets? with
          | some _ => simp [Source.readFields] at h
          | none =>
            simp only [Source.readFields, reduceIte] at h
            cases hdec : decodeStringList v with
            | error e => rw [hdec] at h; exact absurd h (by simp)
            | ok ts =>
              rw [hdec] at h
              have := ih jobs? labels? (some ts) s h
              refine ⟨?_, ?_, Or.inr (by simp)⟩
              · rcases this.1 with h' | h'
                · exact Or.inl h'
                · exact Or.inr (by simp [h'])
              · rcases this.2.1 with h' | h'
                · exact Or.inl h'
                · exact Or.inr (by simp [h'])
        · simp only [Source.readFields, if_neg hk₁, if_neg hk₂, if_neg hk₃] at h
          have := ih jobs? labels? targets? s h
          refine ⟨?_, ?_, ?_⟩
          · rcases this.1 with h' | h'
            · exact Or.inl h'
            · exact Or.inr (by simp [h'])
          · rcases this.2.1 with h' | h'
            · exact Or.inl h'
            · exact Or.inr (by simp [h'])
          · rcases this.2.2 with h' | h'
            · exact Or.inl h'
            · exact Or.inr (by simp [h'])

/-- Counterexample to C3 as stated: a document carrying only `labels`
and `targets` (the field `jobs` absent) does not deserialize to a
`Source` with empty `jobs` — it is rejected with a missing-field
error. -/
theorem C3_counterexample :
    Source.deserialize (JValue.obj [("labels", JValue.obj []), ("targets", JValue.arr [])]) =
      Except.error "missing field jobs" :=
  rfl

/-- C3 (amended): unrecognized fields are skipped by the derived
deserializer of `Source` (prepending one changes nothing), but a record
in which any of `jobs` / `labels` / `targets` is absent fails to
deserialize (the derive carries no `#[serde(default)]`, so absent
fields are missing-field errors, not empties). -/
theorem C3_absent_fields_are_errors (fields : List (String × JValue)) :
    (∀ k v, k ≠ "jobs" → k ≠ "labels" → k ≠ "targets" →
      Source.deserialize (JValue.obj ((k, v) :: fields)) =
        Source.deserialize (JValue.obj fields)) ∧
    ("jobs" ∉ fields.map Prod.fst →
      ∀ s, Source.deserialize (JValue.obj fields) ≠ Except.ok s) ∧
    ("labels" ∉ fields.map Prod.fst →
      ∀ s, Source.deserialize (JValue.obj fields) ≠ Except.ok s) ∧
    ("targets" ∉ fields.map Prod.fst →
      ∀ s, Source.deserialize (JValue.obj fields) ≠ Except.ok s) := by
  refine ⟨?_, ?_, ?_, ?_⟩
  · intro k v hk₁ hk₂ hk₃
    simp [Source.deserialize, Source.readFields, hk₁, hk₂, hk₃]
  · intro hmem s hok
    rcases (readFields_ok_requires_fields fields none none none s hok).1 with h | h
    · simp at h
    · exact hmem h
  · intro hmem s hok
    rcases (readFields_ok_requires_fields fields none none none s hok).2.1 with h | h
    · simp at h
    · exact hmem h
  · intro hmem s hok
    rcases (readFields_ok_requires_fields fields none none none s hok).2.2 with h | h
    · simp at h
    · exact hmem h

/-- Witness for C3 (amended) at concrete inputs: an unknown leading
field is ignored, and a record without `jobs` never yields a
`Source`. -/
theorem C3_witness :
    Source.deserialize (JValue.obj [("extra", JValue.null), ("jobs", JValue.arr []),
        ("labels", JValue.obj []), ("targets", JValue.arr [])]) =
      Source.deserialize (JValue.obj [("jobs", JValue.arr []), ("labels", JValue.obj []),
        ("targets", JValue.arr [])]) ∧
    Source.deserialize (JValue.obj [("labels", JValue.obj []), ("targets", JValue.arr [])]) ≠
      Except.ok ⟨[], [], []⟩ :=
  ⟨(C3_absent_fields_are_errors [("jobs", JValue.arr []), ("labels", JValue.obj []),
      ("targets", JValue.arr [])]).1 "extra" JValue.null
      (by decide) (by decide) (by decide),
   (C3_absent_fields_are_errors [("labels", JValue.obj []),
      ("targets", JValue.arr [])]).2.1 (by decide) ⟨[], [], []⟩⟩

/-- Counterexample to C4 as stated: a file input whose extension is
`txt` detects as `Unknown`, and reading its sources fails with an
`UnsupportedInputFormat` error — it is not processed under the default
input format YAML. -/
theorem C4_counterexample :
    InputFormat.from_extension (some "txt") = InputFormat.unknown ∧
    SourceFile.read_sources [⟨InputFormat.from_extension (some "txt"), JValue.arr []⟩] =
      Except.error (((Error.new (SourceError.unsupportedInputFormat "unknown")).set_context
        "Unsupported input format for source").set_code CODE_RUNTIME_ERROR) :=
  ⟨rfl, rfl⟩

/-- C4 (amended): an extension that detects as `Unknown` makes
`read_sources` fail with `UnsupportedInputFormat` for that input (the
format is a hard error there, not defaulted); the YAML default format
is assigned only by `Input::from_stdin`, while a file input always
carries the format detected from its extension. -/
theorem C4_unknown_format_is_rejected (ext : Option String)
    (h : InputFormat.from_extension ext = InputFormat.unknown) :
    (∀ doc rest, SourceFile.read_sources (⟨Input.fromFileFormat ext, doc⟩ :: rest) =
      Except.error (((Error.new (SourceError.unsupportedInputFormat "unknown")).set_context
        "Unsupported input format for source").set_code CODE_RUNTIME_ERROR)) ∧
    Input.stdinFormat = InputFormat.yaml := by
  constructor
  · intro doc rest
    show SourceFile.read_sources ({ format := Input.fromFileFormat ext, doc := doc } :: rest) = _
    rw [show Input.fromFileFormat ext = InputFormat.unknown from h]
    rfl
  · rfl

/-- Witness for C4 (amended): the `txt` extension is rejected. -/
theorem C4_witness :
    SourceFile.read_sources [⟨Input.fromFileFormat (some "txt"), JValue.arr []⟩] =
      Except.error (((Error.new (SourceError.unsupportedInputFormat "unknown")).set_context
        "Unsupported input format for source").set_code CODE_RUNTIME_ERROR) :=
  (C4_unknown_format_is_rejected (some "txt") rfl).1 (JValue.arr []) []

/-!  Helper lemmas about expansion (`Source::into_targets`). -/

/-- With every writer healthy, `TargetFile::new` always succeeds. -/
theorem targetFile_new_ok (fs : Fs) (job : String) (output : Output)
    (format : OutputFormat) (hw : ∀ p, fs.writerOk p = true) :
    ∃ tf, TargetFile.new fs job output format = Except.ok tf := by
  have hnew : ∀ p, ∃ o, Output.new fs p format = Except.ok o := by
    intro p
    by_cases hp : p = "<stdout>"
    · exact ⟨_, by rw [Output.new, if_pos hp]⟩
    · exact ⟨_, by rw [Output.new, if_neg hp, if_pos (hw p)]⟩
  obtain ⟨o, ho⟩ := hnew (match output.kind with
    | OutputKind.stdout => "<stdout>"
    | OutputKind.file p => p
    | OutputKind.directory p => construct_filebuf p job format)
  refine ⟨{ job := job, output := o, targets := [] }, ?_⟩
  simp only [TargetFile.new]
  rw [ho]

/-- A failing `TargetFile::new` carries an I/O source error (the only
failure point is opening the output writer). -/
theorem targetFile_new_error_io (fs : Fs) (job : String) (output : Output)
    (format : OutputFormat) (e : Error)
    (h : TargetFile.new fs job output format = Except.error e) :
    ∃ m, e.source = SourceError.io m := by
  unfold TargetFile.new at h
  revert h
  generalize (match output.kind with
    | OutputKind.stdout => "<stdout>"
    | OutputKind.file p => p
    | OutputKind.directory p => construct_filebuf p job format) = p
  intro h
  by_cases hp : p = "<stdout>"
  · simp only [Output.new, if_pos hp] at h
    exact absurd h (by simp)
  · simp only [Output.new, if_neg hp] at h
    cases hwp : fs.writerOk p with
    | true => rw [if_pos hwp] at h; exact absurd h (by simp)
    | false =>
      rw [if_neg (by simp [hwp])] at h
      have := (Except.error.injEq _ _).mp h.symm
      subst this
      exact ⟨"Failed to open output: " ++ p, rfl⟩

/-- With a non-empty job name and healthy writers, one expansion step
always succeeds. -/
theorem intoTargetsStep_ok (fs : Fs) (src : Source) (output : Output)
    (format : OutputFormat) (tfs : TargetFiles) (job : String)
    (hjob : ¬job = "") (hw : ∀ p, fs.writerOk p = true) :
    ∃ tfs', Source.intoTargetsStep fs src output format tfs job = Except.ok tfs' := by
  unfold Source.intoTargetsStep
  rw [if_neg hjob]
  cases hh : tfs.has_job job with
  | true =>
    exact ⟨tfs.modify job (fun tf =>
      tf.add_target (TargetGroup.new job src.labels src.targets)), by simp [hh]⟩
  | false =>
    obtain ⟨tf, htf⟩ := targetFile_new_ok fs job output format hw
    exact ⟨(tfs.insert job tf).modify job (fun tf =>
      tf.add_target (TargetGroup.new job src.labels src.targets)), by simp [hh, htf]⟩

/-- A failing expansion step for a non-empty job name carries an I/O
source error. -/
theorem intoTargetsStep_error_io (fs : Fs) (src : Source) (output : Output)
    (format : OutputFormat) (tfs : TargetFiles) (job : String) (e : Error)
    (hjob : ¬job = "")
    (h : Source.intoTargetsStep fs src output format tfs job = Except.error e) :
    ∃ m, e.source = SourceError.io m := by
  unfold Source.intoTargetsStep at h
  rw [if_neg hjob] at h
  cases hh : tfs.has_job job with
  | true => rw [hh] at h; simp at h
  | false =>
    rw [hh] at h
    cases htf : TargetFile.new fs job output format with
    | ok tf => simp [htf] at h
    | error e' =>
      simp only [htf, Bool.false_eq_true, if_false] at h
      have : e' = e := by
        by_contra hne
        simp [hne] at h
      subst this
      exact targetFile_new_error_io fs job output format e' htf

/-- The job loop hits the first empty job name with the
`InvalidInputSource` rejection, whatever precedes it. -/
theorem intoTargetsLoop_first_empty (fs : Fs) (src : Source) (output : Output)
    (format : OutputFormat) (l₂ : List String) :
    ∀ l₁ tfs, (∀ j ∈ l₁, j ≠ "") → (∀ p, fs.writerOk p = true) →
      Source.intoTargetsLoop fs src output format tfs (l₁ ++ "" :: l₂) =
        Except.error ((Error.new (SourceError.invalidInputSource
          "Jobs in source cannot be empty")).set_code CODE_RUNTIME_ERROR) := by
  intro l₁
  induction l₁ with
  | nil =>
    intro tfs _ _
    simp [Source.intoTargetsLoop, Source.intoTargetsStep]
  | cons j rest ih =>
    intro tfs hne hw
    obtain ⟨tfs', hstep⟩ :=
      intoTargetsStep_ok fs src output format tfs j (hne j (List.mem_cons_self j rest)) hw
    simp only [List.cons_append, Source.intoTargetsLoop, hstep]
    exact ih tfs' (fun x hx => hne x (List.mem_cons_of_mem j hx)) hw

/-- Over non-empty job names the loop never raises `InvalidInputSource`
(its only failures are I/O failures of output creation). -/
theorem intoTargetsLoop_no_invalid (fs : Fs) (src : Source) (output : Output)
    (format : OutputFormat) :
    ∀ jobs tfs e, (∀ j ∈ jobs, j ≠ "") →
      Source.intoTargetsLoop fs src output format tfs jobs = Except.error e →
      ∃ m, e.source = SourceError.io m := by
  intro jobs
  induction jobs with
  | nil => intro tfs e _ h; simp [Source.intoTargetsLoop] at h
  | cons j rest ih =>
    intro tfs e hne h
    rw [Source.intoTargetsLoop] at h
    cases hstep : Source.intoTargetsStep fs src output format tfs j with
    | error e' =>
      rw [hstep] at h
      have : e' = e := by
        by_contra hcontra
        simp [hcontra] at h
      subst this
      exact intoTargetsStep_error_io fs src output format tfs j e'
        (hne j (List.mem_cons_self j rest)) hstep
    | ok tfs' =>
      rw [hstep] at h
      exact ih tfs' e (fun x hx => hne x (List.mem_cons_of_mem j hx)) h

/-- C6: a `Source` with an empty job list is rejected with
`InvalidInputSource`; an empty job name is rejected with
`InvalidInputSource` at the first violation (everything before it
having been processed); a source whose jobs are all non-empty never
raises `InvalidInputSource`; and a rejected source aborts the run with
no output written. -/
theorem C6_invalid_sources_rejected (fs : Fs) (output : Output) (format : OutputFormat)
    (tfs : TargetFiles) (src : Source) :
    (src.jobs = [] →
      src.into_targets fs output format tfs = Except.error ((Error.new
        (SourceError.invalidInputSource "Source must have at least one job")).set_code
        CODE_RUNTIME_ERROR)) ∧
    (∀ l₁ l₂, src.jobs = l₁ ++ "" :: l₂ → (∀ j ∈ l₁, j ≠ "") →
      (∀ p, fs.writerOk p = true) →
      src.into_targets fs output format tfs = Except.error ((Error.new
        (SourceError.invalidInputSource "Jobs in source cannot be empty")).set_code
        CODE_RUNTIME_ERROR)) ∧
    (src.jobs ≠ [] → (∀ j ∈ src.jobs, j ≠ "") →
      ∀ e, src.into_targets fs output format tfs = Except.error e →
        ∀ m, e.source ≠ SourceError.invalidInputSource m) ∧
    (∀ rest, src.jobs = [] →
      runFromSources fs (src :: rest) output = ([], Except.error ((Error.new
        (SourceError.invalidInputSource "Source must have at least one job")).set_code
        CODE_RUNTIME_ERROR))) := by
  refine ⟨?_, ?_, ?_, ?_⟩
  · intro h
    rw [Source.into_targets, if_pos (by simp [h])]
  · intro l₁ l₂ hsplit hne hw
    rw [Source.into_targets, if_neg (by simp [hsplit]), hsplit]
    exact intoTargetsLoop_first_empty fs src output format l₂ l₁ tfs hne hw
  · intro hjobs hne e herr m
    rw [Source.into_targets] at herr
    by_cases hempty : src.jobs.isEmpty
    · exact absurd (List.isEmpty_iff.mp hempty) hjobs
    · rw [if_neg hempty] at herr
      obtain ⟨m', hm'⟩ := intoTargetsLoop_no_invalid fs src output format src.jobs tfs e hne herr
      simp [hm']
  · intro rest h
    rw [runFromSources, SourceFile.into_targets,
      show src.into_targets fs output output.format TargetFiles.empty = _ from
        by rw [Source.into_targets, if_pos (by simp [h])]]

/-- Witness for C6 at concrete inputs: the empty job list and the first
empty job name are both rejected, a well-formed source is not rejected,
and a rejected run writes nothing. -/
theorem C6_witness :
    (Source.into_targets fsAllOk ⟨[], [], []⟩ stdoutOut OutputFormat.json
        TargetFiles.empty = Except.error ((Error.new
      (SourceError.invalidInputSource "Source must have at least one job")).set_code
      CODE_RUNTIME_ERROR)) ∧
    (Source.into_targets fsAllOk ⟨["a", ""], [], []⟩ stdoutOut OutputFormat.json
        TargetFiles.empty = Except.error ((Error.new
      (SourceError.invalidInputSource "Jobs in source cannot be empty")).set_code
      CODE_RUNTIME_ERROR)) ∧
    (runFromSources fsAllOk [⟨[], [], []⟩] stdoutOut = ([], Except.error ((Error.new
      (SourceError.invalidInputSource "Source must have at least one job")).set_code
      CODE_RUNTIME_ERROR))) := by
  refine ⟨?_, ?_, ?_⟩
  · exact (C6_invalid_sources_rejected fsAllOk stdoutOut OutputFormat.json
      TargetFiles.empty ⟨[], [], []⟩).1 rfl
  · exact (C6_invalid_sources_rejected fsAllOk stdoutOut OutputFormat.json
      TargetFiles.empty ⟨["a", ""], [], []⟩).2.1 ["a"] [] rfl (by decide) (fun _ => rfl)
  · exact (C6_invalid_sources_rejected fsAllOk stdoutOut OutputFormat.json
      TargetFiles.empty ⟨[], [], []⟩).2.2.2 [] rfl

/-- C7: `Output::new` makes the sentinel `"<stdout>"` pretty exactly
when stdout is an interactive terminal and every other destination
pretty unconditionally; `Output::write` emits, when pretty on the
Stdout sink, the payload framed as `"<job>:\n" ++ payload ++ "\n"`,
when pretty on any other sink the bare pretty payload, and when not
pretty the compact payload with no framing. -/
theorem C7_write_pretty_policy (fs : Fs) (path : Path) (format : OutputFormat)
    (job pp rp : String) :
    (path = "<stdout>" →
      Output.new fs path format =
        Except.ok ⟨path, OutputKind.stdout, format, fs.stdoutIsTerminal⟩) ∧
    (path ≠ "<stdout>" → fs.writerOk path = true →
      Output.new fs path format =
        Except.ok ⟨path, OutputKind.new fs path, format, true⟩) ∧
    (∀ o : Output, o.pretty = true → o.kind = OutputKind.stdout →
      o.emit job pp rp = job ++ ":\n" ++ pp ++ "\n") ∧
    (∀ o : Output, o.pretty = true → o.kind ≠ OutputKind.stdout →
      o.emit job pp rp = pp) ∧
    (∀ o : Output, o.pretty = false → o.emit job pp rp = rp) := by
  refine ⟨?_, ?_, ?_, ?_, ?_⟩
  · intro h
    rw [Output.new, if_pos h]
  · intro h hw
    rw [Output.new, if_neg h, if_pos hw]
  · intro o hpretty hkind
    simp [Output.emit, Output.prettyData, hpretty, hkind]
  · intro o hpretty hkind
    simp [Output.emit, Output.prettyData, hpretty, hkind]
  · intro o hpretty
    simp [Output.emit, hpretty]

/-- Witness for C7 at concrete inputs: terminal stdout is pretty with
framing, a file is pretty without framing, non-terminal stdout emits
the compact payload. -/
theorem C7_witness :
    Output.new fsTerm "<stdout>" OutputFormat.json =
      Except.ok ⟨"<stdout>", OutputKind.stdout, OutputFormat.json, true⟩ ∧
    Output.emit ⟨"<stdout>", OutputKind.stdout, OutputFormat.json, true⟩ "node" "P" "R" =
      "node:\nP\n" ∧
    Output.emit ⟨"f", OutputKind.file "f", OutputFormat.json, true⟩ "node" "P" "R" = "P" ∧
    Output.emit stdoutOut "node" "P" "R" = "R" :=
  ⟨(C7_write_pretty_policy fsTerm "<stdout>" OutputFormat.json "node" "P" "R").1 rfl,
   (C7_write_pretty_policy fsTerm "<stdout>" OutputFormat.json "node" "P" "R").2.2.1
     ⟨"<stdout>", OutputKind.stdout, OutputFormat.json, true⟩ rfl rfl,
   (C7_write_pretty_policy fsTerm "f" OutputFormat.json "node" "P" "R").2.2.2.1
     ⟨"f", OutputKind.file "f", OutputFormat.json, true⟩ rfl (by decide),
   (C7_write_pretty_policy fsAllOk "<stdout>" OutputFormat.json "node" "P" "R").2.2.2.2
     stdoutOut rfl⟩

/-- Distinct jobs derive distinct per-job paths under the same directory
and format. -/
theorem construct_filebuf_inj (dir : Path) (format : OutputFormat) (j₁ j₂ : String)
    (h : construct_filebuf dir j₁ format = construct_filebuf dir j₂ format) :
    j₁ = j₂ := by
  unfold construct_filebuf at h
  have h' := congrArg String.data h
  simp only [String.data_append, List.append_assoc] at h'
  have h₁ := List.append_cancel_left h'
  have h₂ := List.append_cancel_left h₁
  have h₃ := List.append_cancel_right h₂
  exact String.ext h₃

/-- C8: when the run-level output kind is a directory, `TargetFile::new`
derives a per-job output at `<dir>/<job>_targets.<ext>` — extension
`json` for JSON and `yml` for YAML — with sink kind File and
pretty = true; distinct jobs derive distinct paths. -/
theorem C8_directory_derives_per_job_file (fs : Fs) (dir : Path) (job : String)
    (output : Output) (format : OutputFormat)
    (hk : output.kind = OutputKind.directory dir)
    (hns : construct_filebuf dir job format ≠ "<stdout>")
    (hnd : fs.isDir (construct_filebuf dir job format) = false)
    (hw : fs.writerOk (construct_filebuf dir job format) = true) :
    TargetFile.new fs job output format =
      Except.ok ⟨job,
        ⟨construct_filebuf dir job format,
         OutputKind.file (construct_filebuf dir job format), format, true⟩, []⟩ ∧
    construct_filebuf dir job format =
      dir ++ "/" ++ job ++ "_targets." ++ format.extension ∧
    OutputFormat.json.extension = "json" ∧
    OutputFormat.yaml.extension = "yml" ∧
    (∀ j₁ j₂ : String, construct_filebuf dir j₁ format = construct_filebuf dir j₂ format →
      j₁ = j₂) := by
  refine ⟨?_, rfl, rfl, rfl, construct_filebuf_inj dir format⟩
  simp only [TargetFile.new, hk]
  simp only [Output.new, if_neg hns, if_pos hw]
  simp only [OutputKind.new, if_neg hns, hnd]
  simp

/-- Witness for C8 at concrete inputs: job `a` under directory `out`
derives `out/a_targets.json` as a pretty File sink, and jobs `a` and
`b` derive distinct paths. -/
theorem C8_witness :
    TargetFile.new fsAllOk "a" ⟨"out", OutputKind.directory "out", OutputFormat.json, true⟩
        OutputFormat.json =
      Except.ok ⟨"a", ⟨"out/a_targets.json", OutputKind.file "out/a_targets.json",
        OutputFormat.json, true⟩, []⟩ ∧
    construct_filebuf "out" "a" OutputFormat.json ≠
      construct_filebuf "out" "b" OutputFormat.json := by
  constructor
  · exact (C8_directory_derives_per_job_file fsAllOk "out" "a"
      ⟨"out", OutputKind.directory "out", OutputFormat.json, true⟩ OutputFormat.json
      rfl (by decide) rfl rfl).1
  · intro heq
    exact absurd ((C8_directory_derives_per_job_file fsAllOk "out" "a"
      ⟨"out", OutputKind.directory "out", OutputFormat.json, true⟩ OutputFormat.json
      rfl (by decide) rfl rfl).2.2.2.2 "a" "b" heq) (by decide)

/-!  Order facts for the `BTreeMap` key order. -/

theorem strLtb_trans : ∀ as bs cs : List Char,
    strLtb as bs = true → strLtb bs cs = true → strLtb as cs = true := by
  intro as
  induction as with
  | nil =>
    intro bs cs h₁ h₂
    cases bs with
    | nil => simp [strLtb] at h₁
    | cons b bs' =>
      cases cs with
      | nil => simp [strLtb] at h₂
      | cons c cs' => simp [strLtb]
  | cons a as' ih =>
    intro bs cs h₁ h₂
    cases bs with
    | nil => simp [strLtb] at h₁
    | cons b bs' =>
      cases cs with
      | nil => simp [strLtb] at h₂
      | cons c cs' =>
        simp only [strLtb] at h₁ h₂ ⊢
        by_cases hab : a.toNat < b.toNat
        · by_cases hbc : b.toNat < c.toNat
          · rw [if_pos (Nat.lt_trans hab hbc)]
          · by_cases hcb : c.toNat < b.toNat
            · rw [if_neg hbc, if_pos hcb] at h₂
              exact absurd h₂ (by simp)
            · have hbceq : b.toNat = c.toNat :=
                Nat.le_antisymm (Nat.not_lt.mp hcb) (Nat.not_lt.mp hbc)
              rw [if_pos (hbceq ▸ hab)]
        · by_cases hba : b.toNat < a.toNat
          · rw [if_neg hab, if_pos hba] at h₁
            exact absurd h₁ (by simp)
          · have habeq : a.toNat = b.toNat :=
              Nat.le_antisymm (Nat.not_lt.mp hba) (Nat.not_lt.mp hab)
            rw [if_neg hab, if_neg hba] at h₁
            by_cases hbc : b.toNat < c.toNat
            · rw [if_pos (habeq ▸ hbc)]
            · by_cases hcb : c.toNat < b.toNat
              · rw [if_neg hbc, if_pos hcb] at h₂
                exact absurd h₂ (by simp)
              · rw [if_neg hbc, if_neg hcb] at h₂
                have hac : ¬a.toNat < c.toNat := by
                  rw [habeq]
                  exact hbc
                have hca : ¬c.toNat < a.toNat := by
                  rw [habeq]
                  exact hcb
                rw [if_neg hac, if_neg hca]
                exact ih bs' cs' h₁ h₂

theorem strLtb_eq_of_not_lt : ∀ as bs : List Char,
    strLtb as bs = false → strLtb bs as = false → as = bs := by
  intro as
  induction as with
  | nil =>
    intro bs h₁ _
    cases bs with
    | nil => rfl
    | cons b bs' => simp [strLtb] at h₁
  | cons a as' ih =>
    intro bs h₁ h₂
    cases bs with
    | nil => simp [strLtb] at h₂
    | cons b bs' =>
      simp only [strLtb] at h₁ h₂
      by_cases hab : a.toNat < b.toNat
      · rw [if_pos hab] at h₁
        exact absurd h₁ (by simp)
      · by_cases hba : b.toNat < a.toNat
        · rw [if_pos hba] at h₂
          exact absurd h₂ (by simp)
        · have hnat : a.toNat = b.toNat :=
            Nat.le_antisymm (Nat.not_lt.mp hba) (Nat.not_lt.mp hab)
          have habeq : a = b := Char.eq_of_val_eq (UInt32.toNat.inj hnat)
          rw [if_neg hab, if_neg hba] at h₁
          rw [if_neg hba, if_neg hab] at h₂
          rw [habeq, ih bs' h₁ h₂]

theorem keyLt_trans (a b c : String) (h₁ : keyLt a b = true) (h₂ : keyLt b c = true) :
    keyLt a c = true :=
  strLtb_trans a.data b.data c.data h₁ h₂

theorem keyLt_flip_of_ne (a b : String) (h₁ : keyLt a b = false) (h₂ : a ≠ b) :
    keyLt b a = true := by
  cases hc : keyLt b a with
  | true => rfl
  | false => exact absurd (String.ext (strLtb_eq_of_not_lt a.data b.data h₁ hc)) h₂

/-- Membership across a keyed insert: an element of the result either
carries the inserted key or was already present. -/
theorem mem_insertList (k : String) (v : TargetFile) :
    ∀ (m : List (String × TargetFile)) (x : String × TargetFile),
      x ∈ TargetFiles.insertList m k v → x.1 = k ∨ x ∈ m := by
  intro m
  induction m with
  | nil =>
    intro x hx
    simp only [TargetFiles.insertList, List.mem_singleton] at hx
    exact Or.inl (by rw [hx])
  | cons kv rest ih =>
    intro x hx
    obtain ⟨k', v'⟩ := kv
    simp only [TargetFiles.insertList] at hx
    by_cases h₁ : keyLt k k' = true
    · rw [if_pos h₁] at hx
      rcases List.mem_cons.mp hx with h | h
      · exact Or.inl (by rw [h])
      · exact Or.inr h
    · rw [if_neg h₁] at hx
      by_cases h₂ : k = k'
      · rw [if_pos h₂] at hx
        rcases List.mem_cons.mp hx with h | h
        · exact Or.inl (by rw [h])
        · exact Or.inr (List.mem_cons_of_mem _ h)
      · rw [if_neg h₂] at hx
        rcases List.mem_cons.mp hx with h | h
        · exact Or.inr (List.mem_cons.mpr (Or.inl h))
        · rcases ih x h with h' | h'
          · exact Or.inl h'
          · exact Or.inr (List.mem_cons_of_mem _ h')

/-- The registry's `BTreeMap::insert` keeps the entry list strictly
sorted by key. -/
theorem insertList_pairwise (k : String) (v : TargetFile) :
    ∀ m : List (String × TargetFile),
      m.Pairwise (fun a b => keyLt a.1 b.1 = true) →
      (TargetFiles.insertList m k v).Pairwise (fun a b => keyLt a.1 b.1 = true) := by
  intro m
  induction m with
  | nil =>
    intro _
    simp [TargetFiles.insertList]
  | cons kv rest ih =>
    intro h
    obtain ⟨k', v'⟩ := kv
    obtain ⟨hhead, htail⟩ := List.pairwise_cons.mp h
    simp only [TargetFiles.insertList]
    by_cases h₁ : keyLt k k' = true
    · rw [if_pos h₁]
      refine List.pairwise_cons.mpr ⟨?_, h⟩
      intro x hx
      rcases List.mem_cons.mp hx with hx' | hx'
      · rw [hx']
        exact h₁
      · exact keyLt_trans k k' x.1 h₁ (hhead x hx')
    · rw [if_neg h₁]
      by_cases h₂ : k = k'
      · rw [if_pos h₂]
        refine List.pairwise_cons.mpr ⟨?_, htail⟩
        intro x hx
        rw [h₂]
        exact hhead x hx
      · rw [if_neg h₂]
        refine List.pairwise_cons.mpr ⟨?_, ih htail⟩
        intro x hx
        rcases mem_insertList k v rest x hx with h' | h'
        · rw [h']
          exact keyLt_flip_of_ne k k' (Bool.not_eq_true _ ▸ h₁) h₂
        · exact hhead x h'

/-- A healthy prefix of entries is written in list order. -/
theorem writeAllList_all_ok (fs : Fs) :
    ∀ entries : List (String × TargetFile),
      (∀ kv ∈ entries, fs.writeOk kv.2.output.path = true) →
      TargetFiles.writeAllList fs entries =
        (entries.map fun kv => kv.2.output.path, Except.ok ()) := by
  intro entries
  induction entries with
  | nil => intro _; rfl
  | cons kv rest ih =>
    intro h
    obtain ⟨k, tf⟩ := kv
    have hok : fs.writeOk tf.output.path = true := h (k, tf) (List.mem_cons_self _ _)
    have ih' := ih (fun x hx => h x (List.mem_cons_of_mem _ hx))
    simp only [TargetFiles.writeAllList, TargetFile.write, Output.write, if_pos hok, ih']
    rfl

/-- The first failing entry stops the traversal with its error, the
successfully written prefix recorded. -/
theorem writeAllList_first_error (fs : Fs) (k : String) (tf : TargetFile)
    (l₂ : List (String × TargetFile)) (hbad : fs.writeOk tf.output.path = false) :
    ∀ l₁ : List (String × TargetFile),
      (∀ kv ∈ l₁, fs.writeOk kv.2.output.path = true) →
      TargetFiles.writeAllList fs (l₁ ++ (k, tf) :: l₂) =
        (l₁.map fun kv => kv.2.output.path,
         Except.error ((Error.new (SourceError.io "write failed")).set_context
           "Failed to write output")) := by
  intro l₁
  induction l₁ with
  | nil =>
    intro _
    have hneg : ¬fs.writeOk tf.output.path = true := by simp [hbad]
    simp only [List.nil_append, TargetFiles.writeAllList, TargetFile.write, Output.write,
      if_neg hneg]
    rfl
  | cons kv rest ih =>
    intro h
    obtain ⟨k', tf'⟩ := kv
    have hok : fs.writeOk tf'.output.path = true := h (k', tf') (List.mem_cons_self _ _)
    have ih' := ih (fun x hx => h x (List.mem_cons_of_mem _ hx))
    simp only [List.cons_append, TargetFiles.writeAllList, TargetFile.write, Output.write,
      if_pos hok, List.append_eq, ih']
    rfl

/-- C9: the registry keeps its entries in ascending job-name key order
(`insert` preserves strict key sortedness), and `write_all` visits the
entries in that order: with healthy writers every entry is written, in
order, with success returned; otherwise the first failing entry's error
is returned and the entries after it are not written. -/
theorem C9_write_all_key_order_first_error (fs : Fs)
    (entries : List (String × TargetFile)) :
    (∀ (m : List (String × TargetFile)) (k : String) (v : TargetFile),
      m.Pairwise (fun a b => keyLt a.1 b.1 = true) →
      (TargetFiles.insertList m k v).Pairwise (fun a b => keyLt a.1 b.1 = true)) ∧
    ((∀ kv ∈ entries, fs.writeOk kv.2.output.path = true) →
      TargetFiles.write_all fs ⟨entries⟩ =
        (entries.map fun kv => kv.2.output.path, Except.ok ())) ∧
    (∀ l₁ k tf l₂, entries = l₁ ++ (k, tf) :: l₂ →
      (∀ kv ∈ l₁, fs.writeOk kv.2.output.path = true) →
      fs.writeOk tf.output.path = false →
      TargetFiles.write_all fs ⟨entries⟩ =
        (l₁.map fun kv => kv.2.output.path,
         Except.error ((Error.new (SourceError.io "write failed")).set_context
           "Failed to write output"))) := by
  refine ⟨fun m k v hm => insertList_pairwise k v m hm, ?_, ?_⟩
  · intro h
    exact writeAllList_all_ok fs entries h
  · intro l₁ k tf l₂ hsplit h₁ hbad
    show TargetFiles.writeAllList fs entries = _
    rw [hsplit]
    exact writeAllList_first_error fs k tf l₂ hbad l₁ h₁

/-- Witness for C9 at concrete inputs: two healthy entries are written
in key order; with the middle entry's writer broken, only the first
entry is written and the I/O error is surfaced. -/
theorem C9_witness :
    TargetFiles.write_all fsAllOk ⟨[("a", fileTF "a" "pa"), ("b", fileTF "b" "pb")]⟩ =
      (["pa", "pb"], Except.ok ()) ∧
    TargetFiles.write_all fsBad
        ⟨[("a", fileTF "a" "pa"), ("b", fileTF "b" "bad"), ("c", fileTF "c" "pc")]⟩ =
      (["pa"], Except.error ((Error.new (SourceError.io "write failed")).set_context
        "Failed to write output")) := by
  constructor
  · exact (C9_write_all_key_order_first_error fsAllOk
      [("a", fileTF "a" "pa"), ("b", fileTF "b" "pb")]).2.1 (by decide)
  · exact (C9_write_all_key_order_first_error fsBad
      [("a", fileTF "a" "pa"), ("b", fileTF "b" "bad"), ("c", fileTF "c" "pc")]).2.2
      [("a", fileTF "a" "pa")] "b" (fileTF "b" "bad") [("c", fileTF "c" "pc")]
      rfl (by decide) (by decide)

end Pim
